import Mathlib

/-!
Verification of the DQN training orchestrator (`src/rl/dqn/dqn_train.py`) and
the convolutional encoder (`src/torchrl_utils/model/conv_encoder.py`).

Components imported from outside `src/` (torchrl's `EGreedyModule`,
`HardUpdate`, `MultiStepTransform`, the prioritized replay storage, and the
repository's `value_rescale_inv` / `_ConvNetBlock`, whose sources are not
under `src/`) are modelled from the specification, as marked in each doc
comment.
-/

namespace DQNTrain

/-! ## Checkpoint emission (dqn_train.py, main loop)

The loop enumerates collector batches as `for i, data in enumerate(collector)`.
Each batch carries `frames_per_batch` frames; `collected_frames` accumulates
them.  After the warm-up guard (`collected_frames < init_random_frames`
causes `continue`), the checkpoint condition is

    prev_test_frame = ((i - 1) * frames_per_batch) // test_interval
    cur_test_frame = (i * frames_per_batch) // test_interval
    final = collected_frames >= collector.total_frames
    if (i > 0 and (prev_test_frame < cur_test_frame)) or final: save
-/

/-- Cumulative frames after batch `i` (inclusive), with each batch carrying
exactly `fpb` frames: `collected_frames` right after `collected_frames += current_frames`. -/
def collectedAfter (fpb i : ℕ) : ℕ := (i + 1) * fpb

/-- The checkpoint test at batch index `i`, transcribed from
`dqn_train.py` lines 239–242 (with the warm-up `continue` of line 187). -/
def checkpointCond (totalFrames fpb testInterval initRandom i : ℕ) : Bool :=
  if collectedAfter fpb i < initRandom then false
  else
    (decide (0 < i) && decide ((i - 1) * fpb / testInterval < i * fpb / testInterval))
      || decide (totalFrames ≤ collectedAfter fpb i)

/-- Cumulative-frame counts at which a checkpoint is written during the run:
the collector yields `totalFrames / fpb` batches of `fpb` frames each. -/
def checkpointFrames (totalFrames fpb testInterval initRandom : ℕ) : List ℕ :=
  (List.range (totalFrames / fpb)).filterMap fun i =>
    if checkpointCond totalFrames fpb testInterval initRandom i
    then some (collectedAfter fpb i) else none

/-! ## Replay-buffer interaction trace of the optimization loop

`dqn_train.py` lines 195–209: each pass of `for j in range(num_updates)` first
calls `replay_buffer.sample(batch_size)` and, at the end of the same pass,
calls `replay_buffer.update_tensordict_priority(sampled_tensordict)` on the
very batch it sampled, before the next pass samples again. -/

/-- An interaction with the replay buffer during the optimization loop:
`sample j` is the `replay_buffer.sample` call of pass `j`; `update j` is the
`replay_buffer.update_tensordict_priority` call of pass `j` (on the batch
returned by `sample j`). -/
inductive RBEvent where
  | sample (j : ℕ)
  | update (j : ℕ)
deriving DecidableEq

/-- The ordered trace of replay-buffer interactions produced by
`for j in range(numUpdates)` in `dqn_train.py` lines 195–209. -/
def optimLoopTrace : ℕ → List RBEvent
  | 0 => []
  | n + 1 => optimLoopTrace n ++ [RBEvent.sample n, RBEvent.update n]

theorem optimLoopTrace_length (n : ℕ) : (optimLoopTrace n).length = 2 * n := by
  induction n with
  | zero => rfl
  | succ n ih => simp [optimLoopTrace, ih]; omega

/-- Characterization of the positions in the trace: `sample j` sits exactly at
index `2*j` and `update j` exactly at index `2*j + 1`. -/
theorem optimLoopTrace_getElem? (n i : ℕ) :
    (optimLoopTrace n)[i]? =
      if i < 2 * n then
        some (if i % 2 = 0 then RBEvent.sample (i / 2) else RBEvent.update (i / 2))
      else none := by
  induction n with
  | zero => simp [optimLoopTrace]
  | succ n ih =>
    rw [optimLoopTrace]
    rcases Nat.lt_or_ge i (2 * n) with hi | hi
    · rw [List.getElem?_append_left (by rw [optimLoopTrace_length]; exact hi), ih,
        if_pos hi, if_pos (show i < 2 * (n + 1) by omega)]
    · rw [List.getElem?_append_right (by rw [optimLoopTrace_length]; exact hi),
        optimLoopTrace_length]
      rcases Nat.lt_or_ge i (2 * (n + 1)) with h2 | h2
      · rw [if_pos h2]
        rcases (by omega : i = 2 * n ∨ i = 2 * n + 1) with h | h <;> subst h
        · rw [(by omega : 2 * n - 2 * n = 0), (by omega : (2 * n) % 2 = 0),
            (by omega : (2 * n) / 2 = n)]
          rfl
        · rw [(by omega : 2 * n + 1 - 2 * n = 1), (by omega : (2 * n + 1) % 2 = 1)]
          rw [if_neg (by omega), (by omega : (2 * n + 1) / 2 = n)]
          rfl
      · rw [if_neg (by omega), (by omega : i - 2 * n = i - 2 * n - 2 + 2)]
        rfl

/-- Each pass contributes exactly one `update` event for its own index. -/
theorem optimLoopTrace_count_update (n j : ℕ) :
    (optimLoopTrace n).count (RBEvent.update j) = if j < n then 1 else 0 := by
  induction n with
  | zero => simp [optimLoopTrace]
  | succ n ih =>
    rw [optimLoopTrace, List.count_append, ih]
    by_cases hjn : j = n
    · subst hjn
      rw [if_neg (lt_irrefl j), if_pos (Nat.lt_succ_self j)]
      simp [List.count_cons]
    · rw [show ([RBEvent.sample n, RBEvent.update n].count (RBEvent.update j)) = 0 from by
        simp [List.count_cons, hjn]]
      by_cases hj : j < n
      · rw [if_pos hj, if_pos (by omega)]
      · rw [if_neg hj, if_neg (by omega)]

/-- A `sample j` event can only sit at index `2*j`. -/
theorem optimLoopTrace_sample_pos {n j p : ℕ}
    (h : (optimLoopTrace n)[p]? = some (RBEvent.sample j)) : p = 2 * j ∧ j < n := by
  rw [optimLoopTrace_getElem?] at h
  by_cases hp : p < 2 * n
  · rw [if_pos hp] at h
    by_cases h2 : p % 2 = 0
    · rw [if_pos h2] at h
      simp only [Option.some.injEq, RBEvent.sample.injEq] at h
      omega
    · rw [if_neg h2] at h
      simp at h
  · rw [if_neg hp] at h
    simp at h

/-- An `update j` event can only sit at index `2*j + 1`. -/
theorem optimLoopTrace_update_pos {n j p : ℕ}
    (h : (optimLoopTrace n)[p]? = some (RBEvent.update j)) : p = 2 * j + 1 ∧ j < n := by
  rw [optimLoopTrace_getElem?] at h
  by_cases hp : p < 2 * n
  · rw [if_pos hp] at h
    by_cases h2 : p % 2 = 0
    · rw [if_pos h2] at h
      simp at h
    · rw [if_neg h2] at h
      simp only [Option.some.injEq, RBEvent.update.injEq] at h
      omega
  · rw [if_neg hp] at h
    simp at h

/-! ## Target-network hard updates -/

/-- State of the online/target parameter pair during the optimization loop,
with `steps` counting completed optimizer steps. -/
structure TargetState (P : Type) where
  online : P
  target : P
  steps : ℕ

/-- Modelled from the spec: `HardUpdate` (torchrl, not under `src/`), built in
`dqn_train.py` lines 121–123: "the target network parameters are copied
wholesale from the online network every fixed number of optimizer steps
('hard update'), not blended continuously."  One pass of lines 206–207
(`optimizer.step()` then `target_net_updater.step()`): the optimizer
transforms the online parameters by `f`; on every `freq`-th step the target is
overwritten with the (freshly optimized) online parameters, otherwise it is
left untouched. -/
def hardUpdateStep {P : Type} (f : P → P) (freq : ℕ) (s : TargetState P) : TargetState P :=
  let o := f s.online
  let n := s.steps + 1
  { online := o, target := if n % freq = 0 then o else s.target, steps := n }

/-- The state after `n` optimizer steps starting from online parameters `o0`
and target parameters `t0`. -/
def runOptSteps {P : Type} (f : P → P) (freq : ℕ) (o0 t0 : P) : ℕ → TargetState P
  | 0 => ⟨o0, t0, 0⟩
  | n + 1 => hardUpdateStep f freq (runOptSteps f freq o0 t0 n)

theorem runOptSteps_steps {P : Type} (f : P → P) (freq : ℕ) (o0 t0 : P) (n : ℕ) :
    (runOptSteps f freq o0 t0 n).steps = n := by
  induction n with
  | zero => rfl
  | succ n ih => simp [runOptSteps, hardUpdateStep, ih]

theorem runOptSteps_online {P : Type} (f : P → P) (freq : ℕ) (o0 t0 : P) (n : ℕ) :
    (runOptSteps f freq o0 t0 n).online = f^[n] o0 := by
  induction n with
  | zero => rfl
  | succ n ih =>
    simp [runOptSteps, hardUpdateStep, ih, Function.iterate_succ_apply']

/-! ## Exploration-epsilon schedule -/

/-- Modelled from the spec: `EGreedyModule` (torchrl, not under `src/`),
built in `dqn_train.py` lines 60–65: "a scalar epsilon value, monotonically
annealed from eps_start to eps_end over an explicit number of steps".
`greedy_module.step(current_frames)` (line 166) advances the schedule by each
batch's frame count, so epsilon is a function of cumulative environment steps
`k`: it decreases linearly from `epsStart` by
`(epsStart - epsEnd) / annealingNumSteps` per step, floored at `epsEnd`. -/
def epsAt (epsStart epsEnd : ℚ) (annealingNumSteps : ℕ) (k : ℕ) : ℚ :=
  max epsEnd (epsStart - k * ((epsStart - epsEnd) / annealingNumSteps))

/-! ## N-step folding -/

/-- A transition as seen by the n-step transform: an abstract observation id,
a rational reward, a terminal flag, and the successor observation id. -/
structure Transition where
  obs : ℕ
  reward : ℚ
  done : Bool
  nextObs : ℕ
deriving DecidableEq

/-- Discounted sum of the rewards of consecutive transitions:
`r₀ + γ·r₁ + γ²·r₂ + ⋯`. -/
def discountedReward (gamma : ℚ) : List Transition → ℚ
  | [] => 0
  | t :: ts => t.reward + gamma * discountedReward gamma ts

/-- Modelled from the spec: `MultiStepTransform(n_steps, gamma)` (torchrl, not
under `src/`), attached to the replay buffer in `dqn_train.py` line 99:
transitions are "folded into n-step returns (reward = discounted sum over n
steps, next_observation = the observation n steps ahead, done = any terminal
within window) before insertion".  The window is the nonempty list
`t :: rest` of n consecutive transitions. -/
def nstepFold (gamma : ℚ) (t : Transition) (rest : List Transition) : Transition :=
  { obs := t.obs
    reward := discountedReward gamma (t :: rest)
    done := (t :: rest).any (fun u => u.done)
    nextObs := ((t :: rest).getLast (List.cons_ne_nil t rest)).nextObs }

/-! ## Metric emission -/

/-- One metric-emission pass of the training loop (`dqn_train.py` lines
250–252, and the warm-up branch lines 188–190): the code iterates
`logger.log_scalar(key, value, step=collected_frames)` over `log_info` with
no surrounding try/except, so a backend failure propagates to the caller.
`logScalar` is the backend call, which may fail. -/
def logAllMetrics (logScalar : String → ℚ → Except String Unit) :
    List (String × ℚ) → Except String Unit
  | [] => Except.ok ()
  | (k, v) :: rest =>
    match logScalar k v with
    | Except.ok _ => logAllMetrics logScalar rest
    | Except.error e => Except.error e

/-- A logging backend whose `log_scalar` always fails. -/
def failingLogScalar : String → ℚ → Except String Unit :=
  fun _ _ => Except.error "backend failure"

/-! ## Replay storage ring-buffer semantics -/

/-- The last `n` elements of a list. -/
def lastN {α : Type} (n : ℕ) (l : List α) : List α := l.drop (l.length - n)

/-- Insert one item into ring-buffer contents of capacity `cap`: append while
below capacity, else overwrite the oldest (drop the head). -/
def ringAdd {α : Type} (cap : ℕ) (data : List α) (x : α) : List α :=
  if data.length < cap then data ++ [x] else data.tail ++ [x]

/-- Insert a batch of items in order. -/
def ringExtend {α : Type} (cap : ℕ) (data : List α) (xs : List α) : List α :=
  xs.foldl (ringAdd cap) data

/-- Modelled from the spec: the replay storage (`LazyMemmapStorage` inside
`TensorDictPrioritizedReplayBuffer`, torchrl, not under `src/`; built in
`dqn_train.py` lines 89–100): "a fixed-capacity (configurable max size)
circular store of Transitions; insertion order defines eviction order once
full (oldest overwritten)". -/
structure ReplayStore (α : Type) where
  capacity : ℕ
  data : List α

/-- A freshly created store of capacity `cap`. -/
def ReplayStore.empty (α : Type) (cap : ℕ) : ReplayStore α := ⟨cap, []⟩

/-- Insert one item, overwriting the oldest item once the store is full. -/
def ReplayStore.add {α : Type} (b : ReplayStore α) (x : α) : ReplayStore α :=
  ⟨b.capacity, ringAdd b.capacity b.data x⟩

/-- `replay_buffer.extend(data)` (`dqn_train.py` line 185): insert a batch in
order. -/
def ReplayStore.extendBatch {α : Type} (b : ReplayStore α) (xs : List α) : ReplayStore α :=
  xs.foldl ReplayStore.add b

theorem lastN_length {α : Type} (n : ℕ) (l : List α) :
    (lastN n l).length = l.length - (l.length - n) := by
  simp [lastN]

theorem lastN_append_of_le {α : Type} (n : ℕ) (u w : List α) (h : n ≤ w.length) :
    lastN n (u ++ w) = lastN n w := by
  unfold lastN
  rw [List.length_append, (by omega : u.length + w.length - n = u.length + (w.length - n)),
    List.drop_append]

theorem lastN_of_le {α : Type} (n : ℕ) (l : List α) (h : l.length ≤ n) :
    lastN n l = l := by
  unfold lastN
  rw [(by omega : l.length - n = 0), List.drop_zero]

theorem lastN_lastN_append {α : Type} (n : ℕ) (l xs : List α) :
    lastN n (lastN n l ++ xs) = lastN n (l ++ xs) := by
  rcases le_or_lt n l.length with h | h
  · conv_rhs => rw [← List.take_append_drop (l.length - n) l, List.append_assoc]
    rw [lastN_append_of_le n (List.take (l.length - n) l) (List.drop (l.length - n) l ++ xs)
      (by rw [List.length_append, List.length_drop]; omega)]
    rfl
  · rw [lastN_of_le n l (by omega)]

theorem ringAdd_eq_lastN {α : Type} (cap : ℕ) (data : List α) (x : α)
    (hcap : 0 < cap) (hlen : data.length ≤ cap) :
    ringAdd cap data x = lastN cap (data ++ [x]) ∧ (ringAdd cap data x).length ≤ cap := by
  unfold ringAdd
  by_cases h : data.length < cap
  · rw [if_pos h, lastN_of_le cap _ (by simp; omega)]
    refine ⟨rfl, by simp; omega⟩
  · rw [if_neg h]
    have hE : data.length = cap := by omega
    cases data with
    | nil => simp at hE; omega
    | cons a l =>
      constructor
      · unfold lastN
        have h1 : (a :: l ++ [x]).length - cap = 1 := by simp at hE ⊢; omega
        rw [h1]
        simp
      · simp at hE ⊢; omega

/-- Extending ring-buffer contents leaves exactly the last `cap` elements of
(old contents ++ insertions), and the length never exceeds `cap`. -/
theorem ringExtend_eq_lastN {α : Type} (cap : ℕ) (xs : List α) :
    ∀ (data : List α), 0 < cap → data.length ≤ cap →
      ringExtend cap data xs = lastN cap (data ++ xs) ∧
      (ringExtend cap data xs).length ≤ cap := by
  induction xs with
  | nil =>
    intro data hcap hlen
    have h0 : ringExtend cap data [] = data := rfl
    rw [h0, List.append_nil]
    exact ⟨(lastN_of_le cap data hlen).symm, hlen⟩
  | cons x xs ih =>
    intro data hcap hlen
    obtain ⟨hd, hl⟩ := ringAdd_eq_lastN cap data x hcap hlen
    obtain ⟨ihd, ihl⟩ := ih (ringAdd cap data x) hcap hl
    have hstep : ringExtend cap data (x :: xs) = ringExtend cap (ringAdd cap data x) xs := rfl
    constructor
    · rw [hstep, ihd, hd, lastN_lastN_append, List.append_assoc]
      rfl
    · rw [hstep]
      exact ihl

/-- `extendBatch` acts as `ringExtend` on the contents and keeps the capacity. -/
theorem ReplayStore.extendBatch_data {α : Type} (xs : List α) :
    ∀ (b : ReplayStore α), (b.extendBatch xs).capacity = b.capacity ∧
      (b.extendBatch xs).data = ringExtend b.capacity b.data xs := by
  induction xs with
  | nil => intro b; exact ⟨rfl, rfl⟩
  | cons x xs ih =>
    intro b
    obtain ⟨hc, hd⟩ := ih (b.add x)
    exact ⟨hc, hd⟩

/-! ## Value rescaling -/

/-- Modelled from the spec: the value-rescale transform used by
`CustomDQNLoss` (the forward counterpart of `value_rescale_inv`, imported in
`dqn_train.py` lines 23–27 from `torchrl_utils`, whose source is not under
`src/`).  The spec describes "an invertible monotonic transform" applied "to
returns before computing TD error"; we model the standard value-rescaling
function h(x) = sign(x)·(√(|x| + 1) − 1). -/
noncomputable def value_rescale (x : ℝ) : ℝ := Real.sign x * (Real.sqrt (|x| + 1) - 1)

/-- Modelled from the spec: `value_rescale_inv` (imported in `dqn_train.py`
lines 23–27 from `torchrl_utils`, source not under `src/`; applied at line
225 when reporting raw Q-value magnitudes), the inverse of the monotonic
transform: h⁻¹(x) = sign(x)·((|x| + 1)² − 1). -/
noncomputable def value_rescale_inv (x : ℝ) : ℝ := Real.sign x * ((|x| + 1) ^ 2 - 1)

/-! ## Convolutional encoder (src/torchrl_utils/model/conv_encoder.py)

Tensors are modelled at shape level: a raster observation is its
(channels, height, width) shape, a vector its length, and an embedding its
dimension.  `_ConvNetBlock` (imported from `torchrl_utils.model.impala_net`,
not under `src/`) is kept abstract as a height/width transformer `blockHW`
parameterized by kernel size and stride — the spec only says each block
"reduces spatial dimensions". -/

/-- A (channels, height, width) tensor shape. -/
abbrev Shape3 := ℕ × ℕ × ℕ

/-- Dimension after `SquashDims` flattens a (C, H, W) tensor. -/
def flatDim (s : Shape3) : ℕ := s.1 * s.2.1 * s.2.2

/-- Shape of the output of the convolutional stack
(`self.cnn_encoder = torch.nn.Sequential(*layers)`, built from
`_ConvNetBlock(in_ch, cnn_channels[i], kernel_size=kernel_sizes[i],
stride=strides[i])` for each `i`): each block sets the channel count to
`cnn_channels[i]` and maps height/width through `blockHW`. -/
def cnnStackShape (blockHW : ℕ → ℕ → ℕ × ℕ → ℕ × ℕ) :
    List ℕ → List ℕ → List ℕ → Shape3 → Shape3
  | c :: cs, k :: ks, st :: sts, s =>
    let hw := blockHW k st (s.2.1, s.2.2)
    cnnStackShape blockHW cs ks sts (c, hw.1, hw.2)
  | _, _, _, s => s

/-- The `ConvEncoder` module, at shape level.  `postInDim` is the
`in_features` of the `nn.Linear(vec_dim + cnn_output.size(1), vec_out)` layer
of `post_encoder`; it is fixed at construction time. -/
structure ConvEncoder where
  blockHW : ℕ → ℕ → ℕ × ℕ → ℕ × ℕ
  cnnChannels : List ℕ
  kernelSizes : List ℕ
  strides : List ℕ
  postInDim : ℕ
  vecOut : ℕ

/-- `ConvEncoder.__init__` (conv_encoder.py lines 11–42): builds the conv
stack, then probes it once with `dummy_inputs = torch.ones(raster_shape)` and
sizes the projection layer as
`nn.Linear(vec_dim + cnn_output.size(1), vec_out)`. -/
def ConvEncoder.init (blockHW : ℕ → ℕ → ℕ × ℕ → ℕ × ℕ) (rasterShape : Shape3)
    (cnnChannels kernelSizes strides : List ℕ) (vec_dim vec_out : ℕ) : ConvEncoder :=
  let probeDim := flatDim (cnnStackShape blockHW cnnChannels kernelSizes strides rasterShape)
  { blockHW := blockHW, cnnChannels := cnnChannels, kernelSizes := kernelSizes,
    strides := strides, postInDim := vec_dim + probeDim, vecOut := vec_out }

/-- Applying a linear layer at shape level: defined (with output dimension
`outF`) exactly when the input dimension matches `in_features`; a PyTorch
`nn.Linear` raises a shape-mismatch error otherwise. -/
def linearOut (inF outF x : ℕ) : Option ℕ :=
  if x = inF then some outF else none

/-- `ConvEncoder.forward` (conv_encoder.py lines 44–58): run the conv stack,
optionally concatenate the vector input along the last dimension, then apply
`post_encoder`. -/
def ConvEncoder.forward (e : ConvEncoder) (obs : Shape3) (vector : Option ℕ) : Option ℕ :=
  let embed := flatDim (cnnStackShape e.blockHW e.cnnChannels e.kernelSizes e.strides obs)
  let embed := match vector with
    | some v => embed + v
    | none => embed
  linearOut e.postInDim e.vecOut embed

end DQNTrain

open DQNTrain

/-- C1 counterexample: with total_frames=10000, frames_per_batch=1000,
test_interval=2000 (no warm-up), the checkpoints do NOT fall at cumulative
frames {2000, 4000, 6000, 8000, 10000} as claimed. -/
theorem checkpoint_frames_not_spec_set :
    checkpointFrames 10000 1000 2000 0 ≠ [2000, 4000, 6000, 8000, 10000] := by
  decide

/-- C1 (amended): with total_frames=10000, frames_per_batch=1000,
test_interval=2000, checkpoints are written exactly at cumulative frames
{3000, 5000, 7000, 9000, 10000} — five checkpoints, one batch after each
test-interval boundary (the interval counter is evaluated on
`i * frames_per_batch`, the frame count before the current batch), with the
final checkpoint guaranteed by the frame-budget clause even off a boundary. -/
theorem checkpoint_frames_eq :
    checkpointFrames 10000 1000 2000 0 = [3000, 5000, 7000, 9000, 10000] := by
  decide

/-- C2: in the trace of replay-buffer interactions of the optimization loop
(`dqn_train.py` lines 195–209), every sampled batch `j < n` receives exactly
one `update_tensordict_priority` call; that call comes after its own `sample`
call and before any later `sample` call, so no sampled item's priority is
left stale once the training step completes. -/
theorem sampled_batch_priority_updated (n j : ℕ) (hj : j < n) :
    (optimLoopTrace n).count (RBEvent.update j) = 1 ∧
    (∀ (p q : ℕ), (optimLoopTrace n)[p]? = some (RBEvent.sample j) →
      (optimLoopTrace n)[q]? = some (RBEvent.update j) → p < q) ∧
    (∀ (k p q : ℕ), j < k → (optimLoopTrace n)[p]? = some (RBEvent.update j) →
      (optimLoopTrace n)[q]? = some (RBEvent.sample k) → p < q) := by
  refine ⟨?_, ?_, ?_⟩
  · rw [optimLoopTrace_count_update, if_pos hj]
  · intro p q hp hq
    obtain ⟨rfl, -⟩ := optimLoopTrace_sample_pos hp
    obtain ⟨rfl, -⟩ := optimLoopTrace_update_pos hq
    omega
  · intro k p q hk hp hq
    obtain ⟨rfl, -⟩ := optimLoopTrace_update_pos hp
    obtain ⟨rfl, -⟩ := optimLoopTrace_sample_pos hq
    omega

/-- C2 witness: concrete instance at `n = 2`, `j = 0`. -/
theorem sampled_batch_priority_updated_witness :
    (optimLoopTrace 2).count (RBEvent.update 0) = 1 :=
  (sampled_batch_priority_updated 2 0 (by decide)).1

/-- C3: along any run of the optimization loop, the online parameters advance
by one optimizer step per pass, the target parameters are unchanged on every
step that is not a hard-update event (step counts not divisible by
`hard_update_freq`), and immediately after a hard-update event the target
parameters are exactly the online parameters. -/
theorem hard_update_target_invariant {P : Type} (f : P → P) (freq : ℕ) (o0 t0 : P) (n : ℕ) :
    (runOptSteps f freq o0 t0 n).online = f^[n] o0 ∧
    ((n + 1) % freq ≠ 0 →
      (runOptSteps f freq o0 t0 (n + 1)).target = (runOptSteps f freq o0 t0 n).target) ∧
    ((n + 1) % freq = 0 →
      (runOptSteps f freq o0 t0 (n + 1)).target = (runOptSteps f freq o0 t0 (n + 1)).online) := by
  refine ⟨runOptSteps_online f freq o0 t0 n, ?_, ?_⟩
  · intro h
    show (hardUpdateStep f freq (runOptSteps f freq o0 t0 n)).target = _
    rw [hardUpdateStep, runOptSteps_steps]
    simp only [if_neg h]
  · intro h
    show (hardUpdateStep f freq (runOptSteps f freq o0 t0 n)).target = _
    rw [hardUpdateStep, runOptSteps_steps]
    simp only [if_pos h]
    rfl

/-- C3 witness: with `freq = 2` over `P = ℕ`, `f = Nat.succ`, step 2 is a
hard-update event and the target equals the online parameters there. -/
theorem hard_update_target_invariant_witness :
    (1 + 1) % 2 = 0 ∧ (runOptSteps Nat.succ 2 0 5 2).target = (runOptSteps Nat.succ 2 0 5 2).online :=
  ⟨by decide, (hard_update_target_invariant Nat.succ 2 0 5 1).2.2 (by decide)⟩

/-- C4: assuming `eps_end ≤ eps_start` and a positive annealing length, the
exploration epsilon is monotonically non-increasing in cumulative environment
steps and equals exactly `eps_end` at or after `annealing_num_steps` steps. -/
theorem epsilon_schedule_monotone (epsStart epsEnd : ℚ) (annealingNumSteps : ℕ)
    (h1 : epsEnd ≤ epsStart) (h2 : 0 < annealingNumSteps) :
    (∀ (k k' : ℕ), k ≤ k' →
      epsAt epsStart epsEnd annealingNumSteps k' ≤ epsAt epsStart epsEnd annealingNumSteps k) ∧
    (∀ (k : ℕ), annealingNumSteps ≤ k →
      epsAt epsStart epsEnd annealingNumSteps k = epsEnd) := by
  have hN : (0 : ℚ) < (annealingNumSteps : ℚ) := by exact_mod_cast h2
  have hd : 0 ≤ (epsStart - epsEnd) / (annealingNumSteps : ℚ) :=
    div_nonneg (by linarith) hN.le
  constructor
  · intro k k' hk
    apply max_le_max le_rfl
    have : (k : ℚ) ≤ (k' : ℚ) := by exact_mod_cast hk
    nlinarith
  · intro k hk
    have hkQ : (annealingNumSteps : ℚ) ≤ (k : ℚ) := by exact_mod_cast hk
    have hNd : (annealingNumSteps : ℚ) * ((epsStart - epsEnd) / (annealingNumSteps : ℚ))
        = epsStart - epsEnd := mul_div_cancel₀ _ hN.ne'
    apply max_eq_left
    nlinarith

/-- C4 witness: `eps_start = 1`, `eps_end = 1/10`, annealed over 5 steps:
after 7 cumulative steps epsilon equals `eps_end` exactly. -/
theorem epsilon_schedule_monotone_witness : epsAt 1 (1/10) 5 7 = 1/10 :=
  (epsilon_schedule_monotone 1 (1/10) 5 (by norm_num) (by norm_num)).2 7 (by norm_num)

/-- C5 counterexample: for rewards [1,2,3] with discount 1/2 the folded
reward is not 3.25 = 13/4 as the claim states (the discounted sum
1 + 0.5·2 + 0.25·3 evaluates to 2.75, not 3.25). -/
theorem nstep_fold_reward_ne_claimed :
    (nstepFold (1/2) ⟨0, 1, false, 1⟩ [⟨1, 2, false, 2⟩, ⟨2, 3, false, 3⟩]).reward ≠ 13/4 := by
  norm_num [nstepFold, discountedReward]

/-- C5 (amended): folding 3 consecutive transitions with rewards [1,2,3]
under discount 1/2 and n = 3 yields a single transition whose reward is
1 + 0.5·2 + 0.25·3 = 2.75 = 11/4, whose next observation is the observation
3 steps ahead, and whose done flag is true iff any of the 3 steps was
terminal. -/
theorem nstep_fold_rewards_123 (d0 d1 d2 : Bool) (o0 o1 o2 o3 : ℕ) :
    nstepFold (1/2) ⟨o0, 1, d0, o1⟩ [⟨o1, 2, d1, o2⟩, ⟨o2, 3, d2, o3⟩]
      = ⟨o0, 11/4, d0 || d1 || d2, o3⟩ := by
  simp only [nstepFold, discountedReward, List.any_cons, List.any_nil, List.getLast]
  norm_num [Bool.or_assoc]

/-- C6: the spec requires a logging-backend failure to be caught and ignored,
but the metric-emission code (`dqn_train.py` lines 250–252) wraps
`logger.log_scalar` in no try/except: a failing backend call propagates its
error out of the emission pass, aborting the training iteration instead of
being ignored. -/
theorem log_scalar_failure_propagates :
    logAllMetrics failingLogScalar [("train/q_loss", 0)] = Except.error "backend failure" := rfl

/-- C7: inserting `capacity + k` items (`k ≥ 1`) into the fixed-capacity
replay store evicts oldest-first: afterwards the store holds exactly the last
`capacity` inserted items (in insertion order), and after any insertion
sequence whatsoever the store size never exceeds `capacity`. -/
theorem replay_store_ring_semantics {α : Type} (cap k : ℕ) (xs : List α)
    (hcap : 0 < cap) (hk : 1 ≤ k) (hlen : xs.length = cap + k) :
    ((ReplayStore.empty α cap).extendBatch xs).data = xs.drop k ∧
    ∀ (ys : List α), (((ReplayStore.empty α cap).extendBatch ys).data).length ≤ cap := by
  constructor
  · rw [(ReplayStore.extendBatch_data xs (ReplayStore.empty α cap)).2]
    show ringExtend cap [] xs = xs.drop k
    rw [(ringExtend_eq_lastN cap xs [] hcap (by simp)).1]
    unfold lastN
    rw [List.nil_append, hlen, (by omega : cap + k - cap = k)]
  · intro ys
    rw [(ReplayStore.extendBatch_data ys (ReplayStore.empty α cap)).2]
    show (ringExtend cap [] ys).length ≤ cap
    exact (ringExtend_eq_lastN cap ys [] hcap (by simp)).2

/-- C7 witness: capacity 2, three insertions: the store retains the last two
items `[20, 30]`. -/
theorem replay_store_ring_semantics_witness :
    ((ReplayStore.empty ℕ 2).extendBatch [10, 20, 30]).data = [10, 20, 30].drop 1 :=
  (replay_store_ring_semantics 2 1 [10, 20, 30] (by decide) (by decide) (by decide)).1

/-- C8: the value-rescale transform composed with its inverse
(`value_rescale_inv`) is the identity on every (finite, representable) real
input. -/
theorem value_rescale_inv_comp (x : ℝ) : value_rescale_inv (value_rescale x) = x := by
  rcases lt_trichotomy x 0 with hx | hx | hx
  · have habs : |x| = -x := abs_of_neg hx
    have hsx : Real.sign x = -1 := Real.sign_of_neg hx
    have h1 : (1 : ℝ) < Real.sqrt (-x + 1) :=
      Real.lt_sqrt_of_sq_lt (by nlinarith)
    have hs : Real.sqrt (-x + 1) ^ 2 = -x + 1 := Real.sq_sqrt (by linarith)
    have hyv : value_rescale x = -(Real.sqrt (-x + 1) - 1) := by
      rw [value_rescale, hsx, habs]; ring
    have hyneg : value_rescale x < 0 := by rw [hyv]; linarith
    have hsy : Real.sign (value_rescale x) = -1 := Real.sign_of_neg hyneg
    have hay : |value_rescale x| = Real.sqrt (-x + 1) - 1 := by
      rw [abs_of_neg hyneg, hyv]; ring
    rw [value_rescale_inv, hsy, hay,
      (by ring : Real.sqrt (-x + 1) - 1 + 1 = Real.sqrt (-x + 1)), hs]
    ring
  · simp [hx, value_rescale, value_rescale_inv]
  · have habs : |x| = x := abs_of_pos hx
    have hsx : Real.sign x = 1 := Real.sign_of_pos hx
    have h1 : (1 : ℝ) < Real.sqrt (x + 1) :=
      Real.lt_sqrt_of_sq_lt (by nlinarith)
    have hs : Real.sqrt (x + 1) ^ 2 = x + 1 := Real.sq_sqrt (by linarith)
    have hyv : value_rescale x = Real.sqrt (x + 1) - 1 := by
      rw [value_rescale, hsx, habs]; ring
    have hypos : 0 < value_rescale x := by rw [hyv]; linarith
    have hsy : Real.sign (value_rescale x) = 1 := Real.sign_of_pos hypos
    have hay : |value_rescale x| = Real.sqrt (x + 1) - 1 := by
      rw [abs_of_pos hypos, hyv]
    rw [value_rescale_inv, hsy, hay,
      (by ring : Real.sqrt (x + 1) - 1 + 1 = Real.sqrt (x + 1)), hs]
    ring

/-- C9: the projection layer's input size is fixed at construction time by
the single dummy probe of the declared raster shape (it equals `vec_dim`
plus the flattened convolutional output on that shape), and `forward` on an
observation of exactly the declared shape together with a vector of length
`vec_dim` produces an embedding of the fixed dimension `vec_out` — for every
choice of conv-block spatial behaviour and layer configuration. -/
theorem conv_encoder_output_dim (blockHW : ℕ → ℕ → ℕ × ℕ → ℕ × ℕ) (rasterShape : Shape3)
    (cnnChannels kernelSizes strides : List ℕ) (vec_dim vec_out : ℕ) :
    (ConvEncoder.init blockHW rasterShape cnnChannels kernelSizes strides vec_dim vec_out).postInDim
        = vec_dim + flatDim (cnnStackShape blockHW cnnChannels kernelSizes strides rasterShape) ∧
    (ConvEncoder.init blockHW rasterShape cnnChannels kernelSizes strides vec_dim vec_out).forward
        rasterShape (some vec_dim) = some vec_out := by
  refine ⟨rfl, ?_⟩
  simp only [ConvEncoder.forward, ConvEncoder.init, linearOut]
  rw [if_pos (Nat.add_comm _ _)]

/-- C10: with `vec_dim > 0` the vector argument is not actually optional:
`forward` with `vector=None` fails, because the un-concatenated embedding
cannot match the projection layer's fixed input size `vec_dim + flat`; with
`vec_dim = 0` the omitted vector is accepted and `forward` returns the
`vec_out`-dimensional embedding. -/
theorem conv_encoder_vector_required (blockHW : ℕ → ℕ → ℕ × ℕ → ℕ × ℕ) (rasterShape : Shape3)
    (cnnChannels kernelSizes strides : List ℕ) (vec_dim vec_out : ℕ) :
    (0 < vec_dim →
      (ConvEncoder.init blockHW rasterShape cnnChannels kernelSizes strides vec_dim vec_out).forward
        rasterShape none = none) ∧
    (ConvEncoder.init blockHW rasterShape cnnChannels kernelSizes strides 0 vec_out).forward
        rasterShape none = some vec_out := by
  constructor
  · intro h
    simp only [ConvEncoder.forward, ConvEncoder.init, linearOut]
    rw [if_neg (by omega)]
  · simp only [ConvEncoder.forward, ConvEncoder.init, linearOut]
    rw [if_pos (by omega)]

/-- A concrete conv-block spatial map (valid convolution):
(h, w) ↦ ((h − k)/s + 1, (w − k)/s + 1). -/
def demoBlockHW : ℕ → ℕ → ℕ × ℕ → ℕ × ℕ :=
  fun k s hw => ((hw.1 - k) / s + 1, (hw.2 - k) / s + 1)

/-- C10 witness: the default configuration (`vec_dim = 14`) on a 3×8×8
raster rejects a `None` vector. -/
theorem conv_encoder_vector_required_witness :
    0 < 14 ∧ (ConvEncoder.init demoBlockHW (3, 8, 8) [16, 32, 64] [8, 4, 3] [1, 1, 1]
      14 256).forward (3, 8, 8) none = none :=
  ⟨by decide, (conv_encoder_vector_required demoBlockHW (3, 8, 8) [16, 32, 64] [8, 4, 3]
    [1, 1, 1] 14 256).1 (by decide)⟩
